import Mathlib

/-!
Verification of the CHIP-8 emulator core (package `emulator`).

The machine state, the initializer `newChip8`, the timer service
`decrementTimer`, the fetch/decode/execute cycle (`fetchOpcode`,
`execOpcode`, `step`) and the helpers `updateCarryFlag`, `pushStack`,
`popStack`, `draw` and `pressedAnyKey` are embedded from
`src/emulator/chip8.go` and `src/emulator/opcodes.go`.

Machine integers are modelled as `Nat` with explicit `% 256` on every
`uint8` write and `% 65536` on every `uint16` write, mirroring Go's
wrapping arithmetic.  Go array indexing that can be out of bounds
(a runtime panic) is modelled with `Option`-returning accessors; a
failed access and the `log.Fatalf` on an unimplemented family-0 opcode
are the two error outcomes of the `Except`-valued `execOpcode`.

The diagnostic mnemonic ring buffer (`ophistory`, `ophistoryIndex`) is
omitted from the state: it is a string trace that no other code reads
(spec section 3 classifies it as "diagnostic only; has no effect on
execution").
-/

/-- The machine state of `type Chip8 struct` in `chip8.go`
(without the diagnostic `ophistory` ring buffer, see module comment). -/
structure Chip8 where
  mem : Fin 4096 → Nat
  pc : Nat
  v : Fin 16 → Nat
  i : Nat
  dt : Nat
  st : Nat
  sp : Nat
  stack : Fin 16 → Nat
  keys : Fin 16 → Nat
  disp : Fin 2048 → Nat

/-- Error outcomes of one execution step: the `log.Fatalf` on an
unimplemented family-0 opcode, or a Go runtime panic from an
out-of-range array/slice index. -/
inductive ExecErr where
  | notImplemented (op : Nat)
  | indexOutOfRange
deriving DecidableEq

/-- Checked read of `c.mem[a]` (Go panics when `a ≥ 4096`). -/
def memGet? (c : Chip8) (a : Nat) : Option Nat :=
  if h : a < 4096 then some (c.mem ⟨a, h⟩) else none

/-- Checked write of `c.mem[a] = val` (Go panics when `a ≥ 4096`). -/
def memSet? (c : Chip8) (a val : Nat) : Option Chip8 :=
  if h : a < 4096 then some { c with mem := Function.update c.mem ⟨a, h⟩ val } else none

/-- Checked read of `c.keys[k]` (Go panics when `k ≥ 16`). -/
def keysGet? (c : Chip8) (k : Nat) : Option Nat :=
  if h : k < 16 then some (c.keys ⟨k, h⟩) else none

/-- Total read of memory, used on the specification side; agrees with
`memGet?` on in-range addresses. -/
def memAt (c : Chip8) (a : Nat) : Nat :=
  if h : a < 4096 then c.mem ⟨a, h⟩ else 0

/-- Total read of the framebuffer, used on the specification side. -/
def dispAt (c : Chip8) (q : Nat) : Nat :=
  if h : q < 2048 then c.disp ⟨q, h⟩ else 0

/-- `characterSprites` from `chip8.go`: the fixed 80-byte table,
16 glyphs of 5 bytes each. -/
def characterSprites : List Nat :=
  [0xF0, 0x90, 0x90, 0x90, 0xF0,
   0x20, 0x60, 0x20, 0x20, 0x70,
   0xF0, 0x10, 0xF0, 0x80, 0xF0,
   0xF0, 0x10, 0xF0, 0x10, 0xF0,
   0x90, 0x90, 0xF0, 0x10, 0x10,
   0xF0, 0x80, 0xF0, 0x10, 0xF0,
   0xF0, 0x80, 0xF0, 0x90, 0xF0,
   0xF0, 0x10, 0x20, 0x40, 0x40,
   0xF0, 0x90, 0xF0, 0x90, 0xF0,
   0xF0, 0x90, 0xF0, 0x10, 0xF0,
   0xF0, 0x90, 0xF0, 0x90, 0x90,
   0xE0, 0x90, 0xE0, 0x90, 0xE0,
   0xF0, 0x80, 0x80, 0x80, 0xF0,
   0xE0, 0x90, 0x90, 0x90, 0xE0,
   0xF0, 0x80, 0xF0, 0x80, 0xF0,
   0xF0, 0x80, 0xF0, 0x80, 0x80]

/-- `newChip8` from `chip8.go`: zero state, `pc = 0x200`, `sp = 0x0f`,
program bytes copied to `mem[0x200:]` (Go `copy` truncates at the end of
memory), sprite table copied to `mem[0x100:]`.  The two copied regions
are disjoint, so the result is expressed as one case split per address. -/
def newChip8 (b : List Nat) : Chip8 :=
  { mem := fun a =>
      if 0x100 ≤ a.val ∧ a.val < 0x100 + characterSprites.length then
        characterSprites.getD (a.val - 0x100) 0
      else if 0x200 ≤ a.val ∧ a.val - 0x200 < b.length then
        b.getD (a.val - 0x200) 0
      else 0,
    pc := 0x200,
    v := fun _ => 0,
    i := 0,
    dt := 0,
    st := 0,
    sp := 0x0f,
    stack := fun _ => 0,
    keys := fun _ => 0,
    disp := fun _ => 0 }

/-- `decrementTimer` from `chip8.go` (the 60 Hz `tick` service). -/
def decrementTimer (c : Chip8) : Chip8 :=
  let c1 := if 0 < c.dt then { c with dt := c.dt - 1 } else c
  if 0 < c1.st then { c1 with st := c1.st - 1 } else c1

/-- `fetchOpcode` from `chip8.go`: big-endian 16-bit read at `pc`,
then `pc += 2`.  Fails when a byte address is out of memory. -/
def fetchOpcode (c : Chip8) : Option (Nat × Chip8) :=
  match memGet? c c.pc, memGet? c ((c.pc + 1) % 65536) with
  | some hi, some lo => some (hi <<< 8 ||| lo, { c with pc := (c.pc + 2) % 65536 })
  | _, _ => none

/-- `updateCarryFlag` from `chip8.go`: `v[0xf] = 1` if the condition
holds, else `v[0xf] = 0`. -/
def updateCarryFlag (c : Chip8) (b : Prop) [Decidable b] : Chip8 :=
  if b then { c with v := Function.update c.v 15 1 }
  else { c with v := Function.update c.v 15 0 }

/-- `pushStack` from `chip8.go`: `stack[sp] = v; sp--` (the decrement
wraps the `uint8` pointer).  Fails when `sp ≥ 16`. -/
def pushStack (c : Chip8) (val : Nat) : Option Chip8 :=
  if h : c.sp < 16 then
    some { c with stack := Function.update c.stack ⟨c.sp, h⟩ val,
                  sp := (c.sp + 255) % 256 }
  else none

/-- `popStack` from `chip8.go`: `sp++` (wrapping), then read
`stack[sp]`.  Fails when the incremented pointer is `≥ 16`. -/
def popStack (c : Chip8) : Option (Nat × Chip8) :=
  let sp1 := (c.sp + 1) % 256
  if h : sp1 < 16 then some (c.stack ⟨sp1, h⟩, { c with sp := sp1 })
  else none

/-- Inner loop of `draw` in `chip8.go`: the pixels `ix, ix+1, ..., 7`
of sprite row `iy`.  `fuel` counts the remaining iterations
(`fuel + ix = 8` at every call), so the recursion is structural.
A clipped pixel (`tx ≥ 64 || ty ≥ 32`) is skipped; otherwise the
sprite byte `mem[i + iy]` is read (out of range fails), the selected
bit is XORed into the framebuffer cell, and a 1-to-1 overlap records a
collision. -/
def drawRowAux (i x y iy : Nat) : Nat → Nat → Chip8 → Bool → Option (Chip8 × Bool)
  | 0, _, c, fl => some (c, fl)
  | fuel + 1, ix, c, fl =>
    if hcl : 64 ≤ x + ix ∨ 32 ≤ y + iy then
      drawRowAux i x y iy fuel (ix + 1) c fl
    else
      match memGet? c (i + iy) with
      | none => none
      | some sb =>
        let q : Fin 2048 := ⟨(y + iy) * 64 + (x + ix), by omega⟩
        let s := c.disp q
        let d := (sb >>> (7 - ix)) &&& 1
        drawRowAux i x y iy fuel (ix + 1)
          { c with disp := Function.update c.disp q (s ^^^ d) }
          (fl || (s == 1 && d == 1))

/-- Outer loop of `draw` in `chip8.go`: the sprite rows `iy, ..., n-1`,
each processed by `drawRowAux` over its 8 pixels.  `fuel + iy = n`. -/
def drawRowsAux (i x y : Nat) : Nat → Nat → Chip8 → Bool → Option (Chip8 × Bool)
  | 0, _, c, fl => some (c, fl)
  | fuel + 1, iy, c, fl =>
    match drawRowAux i x y iy 8 0 c fl with
    | none => none
    | some (c1, fl1) => drawRowsAux i x y fuel (iy + 1) c1 fl1

/-- `draw` from `chip8.go`.  The slice expression `c.mem[c.i:]` panics
when `c.i > 4096`, hence the leading bound check; the loops then run
with the collision accumulator starting at `false`. -/
def draw (c : Chip8) (x y n : Nat) : Option (Chip8 × Bool) :=
  if c.i ≤ 4096 then drawRowsAux c.i x y n 0 c false else none

/-- Loop body of `pressedAnyKey` from `chip8.go`, scanning keys
`k, k+1, ..., 15` (`fuel + k = 16`): the first index whose flag is 1
is returned, otherwise `0xff`. -/
def pressedAnyKeyAux (c : Chip8) : Nat → Nat → Nat
  | 0, _ => 0xFF
  | fuel + 1, k =>
    if h : k < 16 then
      if c.keys ⟨k, h⟩ = 1 then k else pressedAnyKeyAux c fuel (k + 1)
    else 0xFF

/-- `pressedAnyKey` from `chip8.go`: the lowest pressed key index, or
`0xff` when no key flag is 1. -/
def pressedAnyKey (c : Chip8) : Nat := pressedAnyKeyAux c 16 0

/-- The X register selector of an opcode: `uint8((nnn >> 8) & 0xf)`
with `nnn = op & 0x0FFF` (from `execOpcode` in `opcodes.go`). -/
def decodeX (op : Nat) : Fin 16 :=
  ⟨(op &&& 0x0FFF) >>> 8 &&& 0xF, Nat.lt_succ_of_le Nat.and_le_right⟩

/-- The Y register selector of an opcode: `uint8((nnn >> 4) & 0xf)`. -/
def decodeY (op : Nat) : Fin 16 :=
  ⟨(op &&& 0x0FFF) >>> 4 &&& 0xF, Nat.lt_succ_of_le Nat.and_le_right⟩

/-- Host key input (`pollEvents` in `emulator.go`, spec interface
`setKey`): a key-down writes 1 and a key-up writes 0 into the keypad
flag of the mapped key; the `scanCode2Key` table only produces indices
0..15, hence the `Fin 16` argument. -/
def setKey (c : Chip8) (k : Fin 16) (pressed : Bool) : Chip8 :=
  { c with keys := Function.update c.keys k (if pressed then 1 else 0) }

/-- `execOpcode` from `opcodes.go`.  The two-level `switch` dispatch is
embedded as the corresponding chain of equality tests on the masked
opcode; a `switch` arm absent from the source falls through to `.ok c`
(Go executes no statement), except the `default` of family 0x0 which is
the fatal `log.Fatalf`.  `r` is the value returned by `rand.Uint32()`
for this step (the only nondeterministic input, spec section 5). -/
def execOpcode (r : Nat) (c : Chip8) (op : Nat) : Except ExecErr Chip8 :=
  let nnn := op &&& 0x0FFF
  let nn := nnn &&& 0xFF
  let x := decodeX op
  let y := decodeY op
  let n := nn &&& 0xF
  if op &&& 0xF000 = 0x0000 then
    if op = 0x00E0 then
      .ok { c with disp := fun _ => 0 }
    else if op = 0x00EE then
      match popStack c with
      | some (ret, c1) => .ok { c1 with pc := ret }
      | none => .error .indexOutOfRange
    else .error (.notImplemented op)
  else if op &&& 0xF000 = 0x1000 then
    .ok { c with pc := nnn }
  else if op &&& 0xF000 = 0x2000 then
    match pushStack c c.pc with
    | some c1 => .ok { c1 with pc := nnn }
    | none => .error .indexOutOfRange
  else if op &&& 0xF000 = 0x3000 then
    .ok (if c.v x = nn then { c with pc := (c.pc + 2) % 65536 } else c)
  else if op &&& 0xF000 = 0x4000 then
    .ok (if c.v x ≠ nn then { c with pc := (c.pc + 2) % 65536 } else c)
  else if op &&& 0xF000 = 0x5000 then
    .ok (if c.v x = c.v y then { c with pc := (c.pc + 2) % 65536 } else c)
  else if op &&& 0xF000 = 0x6000 then
    .ok { c with v := Function.update c.v x nn }
  else if op &&& 0xF000 = 0x7000 then
    .ok { c with v := Function.update c.v x ((c.v x + nn) % 256) }
  else if op &&& 0xF000 = 0x8000 then
    if nnn &&& 0xF = 0 then
      .ok { c with v := Function.update c.v x (c.v y) }
    else if nnn &&& 0xF = 1 then
      .ok { c with v := Function.update c.v x (c.v x ||| c.v y) }
    else if nnn &&& 0xF = 2 then
      .ok { c with v := Function.update c.v x (c.v x &&& c.v y) }
    else if nnn &&& 0xF = 3 then
      .ok { c with v := Function.update c.v x (c.v x ^^^ c.v y) }
    else if nnn &&& 0xF = 4 then
      .ok (updateCarryFlag
        { c with v := Function.update c.v x ((c.v x + c.v y) % 256) }
        (0xFF < c.v x + c.v y))
    else if nnn &&& 0xF = 5 then
      .ok (updateCarryFlag
        { c with v := Function.update c.v x ((c.v x + 256 - c.v y) % 256) }
        (¬ c.v x < c.v y))
    else if nnn &&& 0xF = 6 then
      let c1 := updateCarryFlag c ((c.v x &&& 0x01) = 1)
      .ok { c1 with v := Function.update c1.v x (c1.v x >>> 1) }
    else if nnn &&& 0xF = 7 then
      .ok (updateCarryFlag
        { c with v := Function.update c.v x ((c.v y + 256 - c.v x) % 256) }
        (¬ c.v y < c.v x))
    else if nnn &&& 0xF = 0xE then
      let c1 := updateCarryFlag c ((c.v x >>> 7) = 1)
      .ok { c1 with v := Function.update c1.v x ((c1.v x <<< 1) % 256) }
    else .ok c
  else if op &&& 0xF000 = 0x9000 then
    .ok (if c.v x ≠ c.v y then { c with pc := (c.pc + 2) % 65536 } else c)
  else if op &&& 0xF000 = 0xA000 then
    .ok { c with i := nnn }
  else if op &&& 0xF000 = 0xB000 then
    .ok { c with pc := (c.v 0 + nnn) % 65536 }
  else if op &&& 0xF000 = 0xC000 then
    .ok { c with v := Function.update c.v x ((r &&& nn) % 256) }
  else if op &&& 0xF000 = 0xD000 then
    match draw c (c.v x) (c.v y) n with
    | some (c1, flipped) => .ok (updateCarryFlag c1 (flipped = true))
    | none => .error .indexOutOfRange
  else if op &&& 0xF000 = 0xE000 then
    if nn = 0x9E then
      match keysGet? c (c.v x) with
      | some kv => .ok (if kv = 1 then { c with pc := (c.pc + 2) % 65536 } else c)
      | none => .error .indexOutOfRange
    else if nn = 0xA1 then
      match keysGet? c (c.v x) with
      | some kv => .ok (if kv = 0 then { c with pc := (c.pc + 2) % 65536 } else c)
      | none => .error .indexOutOfRange
    else .ok c
  else if op &&& 0xF000 = 0xF000 then
    if nn = 0x07 then
      .ok { c with v := Function.update c.v x c.dt }
    else if nn = 0x0A then
      .ok (if pressedAnyKey c = 0xFF then { c with pc := (c.pc + 65536 - 2) % 65536 }
           else { c with v := Function.update c.v x (pressedAnyKey c) })
    else if nn = 0x15 then
      .ok { c with dt := c.v x }
    else if nn = 0x18 then
      .ok { c with st := c.v x }
    else if nn = 0x1E then
      .ok { c with i := (c.i + c.v x) % 65536 }
    else if nn = 0x29 then
      .ok { c with i := (0x100 + c.v x * 5) % 65536 }
    else if nn = 0x33 then
      match memSet? c c.i (c.v x / 100) with
      | none => .error .indexOutOfRange
      | some c1 =>
        match memSet? c1 ((c.i + 1) % 65536) (c.v x % 100 / 10) with
        | none => .error .indexOutOfRange
        | some c2 =>
          match memSet? c2 ((c.i + 2) % 65536) (c.v x % 10) with
          | none => .error .indexOutOfRange
          | some c3 => .ok c3
    else if nn = 0x55 then
      if h46 : c.i ≤ 4096 then
        let mem1 : Fin 4096 → Nat := fun a =>
          if h : c.i ≤ a.val ∧ a.val < c.i + min (x.val + 1) (4096 - c.i) then
            c.v ⟨a.val - c.i, by have hx := x.isLt; omega⟩
          else c.mem a
        .ok { c with mem := mem1 }
      else .error .indexOutOfRange
    else if nn = 0x65 then
      if h46 : c.i ≤ 4096 then
        let v1 : Fin 16 → Nat := fun k =>
          if h : k.val < min (x.val + 1) (4096 - c.i) then
            c.mem ⟨c.i + k.val, by omega⟩
          else c.v k
        .ok { c with v := v1 }
      else .error .indexOutOfRange
    else .ok c
  else .ok c

/-- `step` from `chip8.go`: fetch one opcode, then execute it. -/
def step (r : Nat) (c : Chip8) : Except ExecErr Chip8 :=
  match fetchOpcode c with
  | some (op, c1) => execOpcode r c1 op
  | none => .error .indexOutOfRange

/-- The all-zero machine state, used to build concrete test states. -/
def zeroChip8 : Chip8 :=
  { mem := fun _ => 0, pc := 0, v := fun _ => 0, i := 0, dt := 0, st := 0,
    sp := 0, stack := fun _ => 0, keys := fun _ => 0, disp := fun _ => 0 }

/-- Convenience constructor for concrete test states: one register set. -/
def withV (c : Chip8) (k : Fin 16) (val : Nat) : Chip8 :=
  { c with v := Function.update c.v k val }

/-- A state whose flag register `VF` holds 1. -/
def c2demo : Chip8 := withV zeroChip8 15 1

/-- A state whose flag register `VF` holds 2. -/
def c3demo : Chip8 := withV zeroChip8 15 2

/-- Post-condition of add-registers (8XY4), as the code computes it:
`VX` receives the 8-bit wrapped sum when `X ≠ 0xF`; `VF` always receives
the carry flag, computed from the operand values before the write (so
for `X = 0xF` the flag overwrites the sum); no other state changes. -/
def c2Concl (r : Nat) (c : Chip8) (op : Nat) (X Y : Fin 16) : Prop :=
  ∃ c2, execOpcode r c op = .ok c2 ∧
    (X.val ≠ 15 → c2.v X = (c.v X + c.v Y) % 256) ∧
    c2.v 15 = (if 255 < c.v X + c.v Y then 1 else 0) ∧
    (∀ k : Fin 16, k ≠ X → k.val ≠ 15 → c2.v k = c.v k) ∧
    c2.pc = c.pc ∧ c2.mem = c.mem ∧ c2.i = c.i ∧ c2.dt = c.dt ∧
    c2.st = c.st ∧ c2.sp = c.sp ∧ c2.stack = c.stack ∧
    c2.keys = c.keys ∧ c2.disp = c.disp

/-- C2 (amended): for every opcode of family 0x8 with sub-op 4 and
register selectors X, Y, the add-registers instruction stores the
8-bit wrapped sum into VX when `X ≠ 0xF`, and stores the carry flag
(computed from the old operand values) into VF — for `X = 0xF` the
flag therefore overwrites the sum.  Nothing else changes. -/
theorem c2_add_registers (r : Nat) (c : Chip8) (op : Nat) (X Y : Fin 16)
    (hop : op &&& 0xF000 = 0x8000) (hsub : op &&& 0x0FFF &&& 0xF = 4)
    (hX : decodeX op = X) (hY : decodeY op = Y) : c2Concl r c op X Y := by
  unfold c2Concl execOpcode
  simp only [hop, hsub, hX, hY]
  norm_num [updateCarryFlag]
  have h15 : ((15 : Fin 16) : Nat) = 15 := rfl
  by_cases hc : 255 < c.v X + c.v Y <;>
    simp [hc, Function.update_apply, Fin.ext_iff, h15] <;>
    exact ⟨fun h h2 => absurd h2 h, fun k h1 h2 => by rw [if_neg h2, if_neg h1]⟩

/-- Post-condition of shift-right (8XY6), as the code computes it: the
flag write happens first, the shift second, so for `X = 0xF` the shift
is applied to the just-written flag and `VF` always ends 0; for
`X ≠ 0xF` the claim's behavior holds. -/
def c3Concl (r : Nat) (c : Chip8) (op : Nat) (X : Fin 16) : Prop :=
  ∃ c2, execOpcode r c op = .ok c2 ∧
    (X.val ≠ 15 → c2.v X = c.v X >>> 1 ∧ c2.v 15 = c.v X &&& 1) ∧
    (X.val = 15 → c2.v 15 = 0) ∧
    (∀ k : Fin 16, k ≠ X → k.val ≠ 15 → c2.v k = c.v k) ∧
    c2.pc = c.pc ∧ c2.mem = c.mem ∧ c2.i = c.i ∧ c2.dt = c.dt ∧
    c2.st = c.st ∧ c2.sp = c.sp ∧ c2.stack = c.stack ∧
    c2.keys = c.keys ∧ c2.disp = c.disp

/-- C3 (amended): shift-right (8XY6) sets `VF` to the pre-instruction
least-significant bit of `VX` and halves `VX` — but only for
`X ≠ 0xF`; for `X = 0xF` the handler first writes the flag into `VF`
and then shifts that flag, so `VF` ends 0 regardless. -/
theorem c3_shift_right (r : Nat) (c : Chip8) (op : Nat) (X : Fin 16)
    (hop : op &&& 0xF000 = 0x8000) (hsub : op &&& 0x0FFF &&& 0xF = 6)
    (hX : decodeX op = X) : c3Concl r c op X := by
  unfold c3Concl execOpcode
  simp only [hop, hsub, hX]
  norm_num [updateCarryFlag]
  have h15 : ((15 : Fin 16) : Nat) = 15 := rfl
  by_cases hx : X.val = 15 <;> by_cases hb : c.v X % 2 = 1 <;>
    simp [hx, hb, Function.update_apply, Fin.ext_iff, h15]
  · exact fun k h => by rw [if_neg h, if_neg h]
  · exact fun k h => by rw [if_neg h, if_neg h]
  · exact ⟨fun h => absurd h.symm hx, fun k h1 h2 => by rw [if_neg h1, if_neg h2]⟩
  · refine ⟨?_, fun k h1 h2 => by rw [if_neg h1, if_neg h2]⟩
    rw [if_neg (fun h => hx h.symm)]
    omega

/-- Post-condition of add-immediate (7XNN), as the code computes it:
`VX` receives the 8-bit wrapped sum of `VX` and `NN`; the flag
register is unaffected only when `X ≠ 0xF` (for `X = 0xF` the target
of the add is `VF` itself); no other state changes. -/
def c4Concl (r : Nat) (c : Chip8) (op : Nat) (X : Fin 16) : Prop :=
  ∃ c2, execOpcode r c op = .ok c2 ∧
    c2.v X = (c.v X + (op &&& 0x0FFF &&& 0xFF)) % 256 ∧
    (X.val ≠ 15 → c2.v 15 = c.v 15) ∧
    (∀ k : Fin 16, k ≠ X → c2.v k = c.v k) ∧
    c2.pc = c.pc ∧ c2.mem = c.mem ∧ c2.i = c.i ∧ c2.dt = c.dt ∧
    c2.st = c.st ∧ c2.sp = c.sp ∧ c2.stack = c.stack ∧
    c2.keys = c.keys ∧ c2.disp = c.disp

/-- C4 (amended): add-immediate (7XNN) wraps `VX + NN` into `VX` and
leaves the flag register `VF` unaffected for every `X ≠ 0xF`; for
`X = 0xF` the instruction's destination is `VF` itself, so `VF`
changes whenever `NN mod 256 ≠ 0`. -/
theorem c4_add_immediate (r : Nat) (c : Chip8) (op : Nat) (X : Fin 16)
    (hop : op &&& 0xF000 = 0x7000) (hX : decodeX op = X) : c4Concl r c op X := by
  unfold c4Concl execOpcode
  simp only [hop, hX]
  norm_num
  have h15 : ((15 : Fin 16) : Nat) = 15 := rfl
  simp [Function.update_apply, Fin.ext_iff, h15]
  exact ⟨fun hx h => absurd h.symm hx, fun k h hh => absurd hh h⟩

/-- C2 counterexample: at X = Y = 0xF with VF = 1, the executed
add-registers leaves VF = 0 (the carry flag overwrites the sum), while
the claim asserts that VX (= VF) ends at (1 + 1) % 256 = 2. -/
theorem c2_cex :
    (execOpcode 0 c2demo 0x8FF4).toOption.map (fun s => s.v 15) = some 0 ∧
    (c2demo.v 15 + c2demo.v 15) % 256 = 2 := by
  constructor <;> decide

/-- C2 witness: the amended add-registers theorem applied at a
concrete state with V1 = 200, V2 = 100 and opcode 0x8124. -/
theorem c2_wit : c2Concl 0 (withV (withV zeroChip8 1 200) 2 100) 0x8124 1 2 :=
  c2_add_registers 0 (withV (withV zeroChip8 1 200) 2 100) 0x8124 1 2
    (by decide) (by decide) (by decide) (by decide)

/-- C3 counterexample: at X = 0xF with VF = 2, the executed
shift-right leaves VF = 0, while the claim asserts VX (= VF) ends at
2 >>> 1 = 1. -/
theorem c3_cex :
    (execOpcode 0 c3demo 0x8F06).toOption.map (fun s => s.v 15) = some 0 ∧
    c3demo.v 15 >>> 1 = 1 := by
  constructor <;> decide

/-- C3 witness: the amended shift-right theorem applied at a concrete
state with V3 = 5 and opcode 0x8306. -/
theorem c3_wit : c3Concl 0 (withV zeroChip8 3 5) 0x8306 3 :=
  c3_shift_right 0 (withV zeroChip8 3 5) 0x8306 3 (by decide) (by decide) (by decide)

/-- C4 counterexample: opcode 0x7F01 (add-immediate with X = 0xF)
changes VF from 0 to 1, while the claim asserts the flag register is
unaffected. -/
theorem c4_cex :
    (execOpcode 0 zeroChip8 0x7F01).toOption.map (fun s => s.v 15) = some 1 ∧
    zeroChip8.v 15 = 0 := by
  constructor <;> decide

/-- C4 witness: the amended add-immediate theorem applied at a
concrete state with V4 = 250 and opcode 0x7410. -/
theorem c4_wit : c4Concl 0 (withV zeroChip8 4 250) 0x7410 4 :=
  c4_add_immediate 0 (withV zeroChip8 4 250) 0x7410 4 (by decide) (by decide)

/-- Total read of a register by numeric index, specification side. -/
def vAt (c : Chip8) (k : Nat) : Nat :=
  if h : k < 16 then c.v ⟨k, h⟩ else 0

/-- Post-condition of one `tick` (`decrementTimer`): each timer is
decremented by 1 exactly when nonzero (independently), and every other
state component is untouched. -/
def c8Concl (c : Chip8) : Prop :=
  (decrementTimer c).dt = (if 0 < c.dt then c.dt - 1 else c.dt) ∧
  (decrementTimer c).st = (if 0 < c.st then c.st - 1 else c.st) ∧
  (decrementTimer c).mem = c.mem ∧ (decrementTimer c).pc = c.pc ∧
  (decrementTimer c).v = c.v ∧ (decrementTimer c).i = c.i ∧
  (decrementTimer c).sp = c.sp ∧ (decrementTimer c).stack = c.stack ∧
  (decrementTimer c).keys = c.keys ∧ (decrementTimer c).disp = c.disp

/-- C8: one tick decrements the delay timer by exactly 1 when nonzero
and leaves it at 0 when 0, independently does the same for the sound
timer, and changes nothing else; in particular no reset or restart of
a timer ever happens in the tick service. -/
theorem c8_tick (c : Chip8) : c8Concl c := by
  unfold c8Concl decrementTimer
  by_cases h1 : 0 < c.dt <;> by_cases h2 : 0 < c.st <;> simp [h1, h2]

/-- Post-condition of the initializer `newChip8 b`: program counter
0x200, stack pointer 15, the 80-byte sprite table at 0x100..0x14F, the
program bytes from 0x200 on, and every other component zero. -/
def c7Concl (b : List Nat) : Prop :=
  (newChip8 b).pc = 0x200 ∧ (newChip8 b).sp = 15 ∧
  (∀ j, j < 80 → memAt (newChip8 b) (0x100 + j) = characterSprites.getD j 0) ∧
  (∀ j, j < b.length → memAt (newChip8 b) (0x200 + j) = b.getD j 0) ∧
  (∀ a, a < 4096 →
    a < 0x100 ∨ (0x150 ≤ a ∧ a < 0x200) ∨ 0x200 + b.length ≤ a →
    memAt (newChip8 b) a = 0) ∧
  (∀ k : Fin 16, (newChip8 b).v k = 0) ∧ (newChip8 b).i = 0 ∧
  (newChip8 b).dt = 0 ∧ (newChip8 b).st = 0 ∧
  (∀ k : Fin 16, (newChip8 b).stack k = 0) ∧
  (∀ k : Fin 16, (newChip8 b).keys k = 0) ∧
  (∀ q : Fin 2048, (newChip8 b).disp q = 0)

/-- C7: for every program of length at most 3584 bytes, the
initializer places the sprite table at 0x100..0x14F and the program at
0x200.., sets pc = 0x200 and sp = 15, and zeroes everything else. -/
theorem c7_initializer (b : List Nat) (hlen : b.length ≤ 3584) : c7Concl b := by
  have hcs : characterSprites.length = 80 := rfl
  unfold c7Concl newChip8 memAt
  refine ⟨rfl, rfl, ?_, ?_, ?_, fun k => rfl, rfl, rfl, rfl,
    fun k => rfl, fun k => rfl, fun q => rfl⟩
  · intro j hj
    rw [dif_pos (by omega)]
    simp only [hcs]
    rw [if_pos (by omega)]
    have he : 0x100 + j - 0x100 = j := by omega
    rw [he]
  · intro j hj
    rw [dif_pos (by omega)]
    simp only [hcs]
    rw [if_neg (by omega), if_pos (by omega)]
    have he : 0x200 + j - 0x200 = j := by omega
    rw [he]
  · intro a ha hcase
    rw [dif_pos (by omega)]
    simp only [hcs]
    rw [if_neg (by omega), if_neg (by omega)]

/-- C7 witness: the initializer theorem applied to the two-byte
program 0xAB 0xCD. -/
theorem c7_wit : c7Concl [0xAB, 0xCD] :=
  c7_initializer [0xAB, 0xCD] (by decide)

/-- When no key flag is 1, the key scan returns 0xff from any start. -/
theorem pressedAnyKeyAux_none (c : Chip8) (hnone : ∀ k : Fin 16, c.keys k ≠ 1) :
    ∀ fuel st, pressedAnyKeyAux c fuel st = 0xFF := by
  intro fuel
  induction fuel with
  | zero => intro st; rfl
  | succ m ih =>
    intro st
    unfold pressedAnyKeyAux
    by_cases h : st < 16
    · rw [dif_pos h, if_neg (hnone ⟨st, h⟩)]
      exact ih (st + 1)
    · rw [dif_neg h]

/-- The key scan started at `st` returns the lowest index `k ≥ st`
whose flag is 1, provided one exists and `st + fuel = 16`. -/
theorem pressedAnyKeyAux_found (c : Chip8) (k : Fin 16) (hk : c.keys k = 1) :
    ∀ fuel st, st + fuel = 16 → st ≤ k.val →
      (∀ j : Fin 16, st ≤ j.val → j.val < k.val → c.keys j ≠ 1) →
      pressedAnyKeyAux c fuel st = k.val := by
  intro fuel
  induction fuel with
  | zero => intro st h16 hle _; omega
  | succ m ih =>
    intro st h16 hle hlow
    have hst : st < 16 := by omega
    unfold pressedAnyKeyAux
    rw [dif_pos hst]
    by_cases he : st = k.val
    · rw [if_pos (by rw [show (⟨st, hst⟩ : Fin 16) = k from Fin.ext he]; exact hk)]
      exact he
    · have hstk : st < k.val := by omega
      rw [if_neg (hlow ⟨st, hst⟩ (le_refl st) hstk)]
      exact ih (st + 1) (by omega) hstk
        (fun j hj1 hj2 => hlow j (by omega) hj2)

/-- Post-condition of block-for-key (FX0A): with no key flag set, only
the program counter changes, rolled back by 2 (so the next fetch
re-reads the same instruction); with at least one key flag set, the
lowest set key index is stored in VX and the (already advanced)
program counter is untouched. -/
def c6Concl (r : Nat) (c : Chip8) (op : Nat) (X : Fin 16) : Prop :=
  ((∀ k : Fin 16, c.keys k ≠ 1) →
    execOpcode r c op = .ok { c with pc := (c.pc + 65536 - 2) % 65536 } ∧
    (2 ≤ c.pc → c.pc < 65536 → (c.pc + 65536 - 2) % 65536 = c.pc - 2)) ∧
  (∀ k : Fin 16, c.keys k = 1 → (∀ j : Fin 16, j.val < k.val → c.keys j ≠ 1) →
    execOpcode r c op = .ok { c with v := Function.update c.v X k.val })

/-- C6: block-for-key (FX0A) with no key pressed rolls the program
counter back by 2 and changes no register; with keys pressed it stores
the lowest set key index into VX and leaves the program counter
alone. -/
theorem c6_block_for_key (r : Nat) (c : Chip8) (op : Nat) (X : Fin 16)
    (hop : op &&& 0xF000 = 0xF000) (hnn : op &&& 0x0FFF &&& 0xFF = 0x0A)
    (hX : decodeX op = X) : c6Concl r c op X := by
  unfold c6Concl execOpcode
  simp only [hop, hnn, hX]
  norm_num
  constructor
  · intro hnone
    have hpak : pressedAnyKey c = 0xFF := pressedAnyKeyAux_none c hnone 16 0
    rw [hpak]
    exact ⟨fun h => absurd rfl h, fun h1 h2 => by omega⟩
  · intro k hk hlow
    have hpak : pressedAnyKey c = k.val :=
      pressedAnyKeyAux_found c k hk 16 0 (by omega) (by omega)
        (fun j _ hj2 => hlow j hj2)
    rw [hpak]
    have hk16 : k.val < 16 := k.isLt
    rw [if_neg (by omega)]

/-- C6 witness: the block-for-key theorem applied at a concrete state
in which the host pressed key 2, with opcode 0xF50A. -/
theorem c6_wit : c6Concl 0 (setKey zeroChip8 2 true) 0xF50A 5 :=
  c6_block_for_key 0 (setKey zeroChip8 2 true) 0xF50A 5
    (by decide) (by decide) (by decide)

/-- Post-condition of the keypad-skip handlers (EX9E / EXA1): with
`VX > 15` the keypad index is out of bounds and execution faults; with
`VX ≤ 15` the instruction executes normally. -/
def c10Concl (r : Nat) (c : Chip8) (op : Nat) (X : Fin 16) : Prop :=
  (15 < c.v X → execOpcode r c op = .error .indexOutOfRange) ∧
  (c.v X ≤ 15 → ∃ c2, execOpcode r c op = .ok c2)

/-- C10: the skip-if-key handlers index the 16-entry keypad with the
full 8-bit VX, so they are safe exactly under the precondition
VX ≤ 15; for VX > 15 the checked keypad access fails (a Go runtime
panic), while `setKey` itself can only mark key indices 0..15. -/
theorem c10_key_skip_bounds (r : Nat) (c : Chip8) (op : Nat) (X : Fin 16)
    (hop : op &&& 0xF000 = 0xE000)
    (hnn : op &&& 0x0FFF &&& 0xFF = 0x9E ∨ op &&& 0x0FFF &&& 0xFF = 0xA1)
    (hX : decodeX op = X) : c10Concl r c op X := by
  unfold c10Concl execOpcode keysGet?
  rcases hnn with hnn | hnn <;>
    simp only [hop, hnn, hX] <;>
    norm_num <;>
    constructor <;>
    intro hvx
  · rw [dif_neg (by omega)]
  · rw [dif_pos (by omega)]
    exact ⟨_, rfl⟩
  · rw [dif_neg (by omega)]
  · rw [dif_pos (by omega)]
    exact ⟨_, rfl⟩

/-- C10 witness: the keypad-bounds theorem applied at a concrete state
with V1 = 20 > 15, opcode 0xE19E. -/
theorem c10_wit : c10Concl 0 (withV zeroChip8 1 20) 0xE19E 1 :=
  c10_key_skip_bounds 0 (withV zeroChip8 1 20) 0xE19E 1
    (by decide) (by decide) (by decide)

/-- The memory contents after register dump (FX55): addresses
I..I+min(X+1, 4096-I)-1 hold V0.. and all others are untouched. -/
def dumpMem (c : Chip8) (X : Fin 16) : Fin 4096 → Nat := fun a =>
  if c.i ≤ a.val ∧ a.val < c.i + min (X.val + 1) (4096 - c.i) then
    vAt c (a.val - c.i)
  else c.mem a

/-- The register file after register load (FX65): V0..V(min(X+1,
4096-I)-1) hold the memory bytes at I.. and all others are
untouched. -/
def loadV (c : Chip8) (X : Fin 16) : Fin 16 → Nat := fun k =>
  if k.val < min (X.val + 1) (4096 - c.i) then memAt c (c.i + k.val)
  else c.v k

/-- Register dump (FX55): `copy(c.mem[c.i:], c.v[:x+1])` writes
registers V0..VX to memory at I (truncated at the end of memory). -/
theorem exec_dump_eq (r : Nat) (c : Chip8) (op : Nat) (X : Fin 16)
    (hop : op &&& 0xF000 = 0xF000) (hnn : op &&& 0x0FFF &&& 0xFF = 0x55)
    (hX : decodeX op = X) (h46 : c.i ≤ 4096) :
    execOpcode r c op = .ok { c with mem := dumpMem c X } := by
  unfold execOpcode
  simp only [hop, hnn, hX]
  norm_num
  rw [dif_pos h46]
  simp only [Except.ok.injEq]
  congr 1
  funext a
  unfold dumpMem
  by_cases hc : c.i ≤ a.val ∧ a.val < c.i + min (X.val + 1) (4096 - c.i)
  · rw [dif_pos hc, if_pos hc]
    have hb : a.val - c.i < 16 := by have := X.isLt; omega
    rw [vAt, dif_pos hb]
  · rw [dif_neg hc, if_neg hc]

/-- Register load (FX65): `copy(c.v[:x+1], c.mem[c.i:])` reads
registers V0..VX back from memory at I. -/
theorem exec_load_eq (r : Nat) (c : Chip8) (op : Nat) (X : Fin 16)
    (hop : op &&& 0xF000 = 0xF000) (hnn : op &&& 0x0FFF &&& 0xFF = 0x65)
    (hX : decodeX op = X) (h46 : c.i ≤ 4096) :
    execOpcode r c op = .ok { c with v := loadV c X } := by
  unfold execOpcode
  simp only [hop, hnn, hX]
  norm_num
  rw [dif_pos h46]
  simp only [Except.ok.injEq]
  congr 1
  funext k
  unfold loadV
  by_cases hc : k.val < X.val + 1 ∧ k.val < 4096 - c.i
  · rw [dif_pos hc, if_pos (lt_min_iff.mpr hc)]
    have hb : c.i + k.val < 4096 := by omega
    rw [memAt, dif_pos hb]
  · rw [dif_neg hc, if_neg (fun h => hc (lt_min_iff.mp h))]

/-- Post-condition of the dump/load round trip: dumping V0..VX at I
and loading V0..VX back from the same I restores every register, and
loading from any state whose memory at its own I matches V0..VX
reproduces V0..VX. -/
def c9Concl (r1 r2 r3 : Nat) (c d : Chip8) (op1 op2 : Nat) (X : Fin 16) : Prop :=
  (∃ c1 c2, execOpcode r1 c op1 = .ok c1 ∧ execOpcode r2 c1 op2 = .ok c2 ∧
    ∀ k : Fin 16, c2.v k = c.v k) ∧
  ((∀ j, j ≤ X.val → memAt d (d.i + j) = vAt c j) → d.i + X.val ≤ 4095 →
    ∃ d2, execOpcode r3 d op2 = .ok d2 ∧
      ∀ k : Fin 16, k.val ≤ X.val → d2.v k = c.v k)

/-- C9: register dump (FX55) followed by register load (FX65) with the
same in-bounds I (I + X ≤ 4095) restores V0..VX exactly; the same
holds for a load at a different I whose memory content matches the
dumped registers. -/
theorem c9_dump_load_roundtrip (r1 r2 r3 : Nat) (c d : Chip8) (op1 op2 : Nat)
    (X : Fin 16)
    (hop1 : op1 &&& 0xF000 = 0xF000) (hnn1 : op1 &&& 0x0FFF &&& 0xFF = 0x55)
    (hX1 : decodeX op1 = X)
    (hop2 : op2 &&& 0xF000 = 0xF000) (hnn2 : op2 &&& 0x0FFF &&& 0xFF = 0x65)
    (hX2 : decodeX op2 = X)
    (hI : c.i + X.val ≤ 4095) : c9Concl r1 r2 r3 c d op1 op2 X := by
  have hxv : X.val < 16 := X.isLt
  constructor
  · have h46 : c.i ≤ 4096 := by omega
    refine ⟨_, _, exec_dump_eq r1 c op1 X hop1 hnn1 hX1 h46,
      exec_load_eq r2 _ op2 X hop2 hnn2 hX2 h46, ?_⟩
    intro k
    show loadV { c with mem := dumpMem c X } X k = c.v k
    unfold loadV
    by_cases hk : k.val < min (X.val + 1) (4096 - c.i)
    · rw [if_pos hk]
      show memAt { c with mem := dumpMem c X } (c.i + k.val) = c.v k
      unfold memAt
      rw [dif_pos (by omega)]
      show dumpMem c X ⟨c.i + k.val, by omega⟩ = c.v k
      unfold dumpMem
      have hmk : k.val < min (X.val + 1) (4096 - c.i) := hk
      have hcond : c.i ≤ c.i + k.val ∧
          c.i + k.val < c.i + min (X.val + 1) (4096 - c.i) := by
        exact ⟨by omega, by omega⟩
      rw [if_pos hcond]
      show vAt c (c.i + k.val - c.i) = c.v k
      have he : c.i + k.val - c.i = k.val := by omega
      rw [he]
      unfold vAt
      rw [dif_pos k.isLt]
    · rw [if_neg hk]
  · intro hmatch hdI
    have h46d : d.i ≤ 4096 := by omega
    refine ⟨_, exec_load_eq r3 d op2 X hop2 hnn2 hX2 h46d, ?_⟩
    intro k hkX
    show loadV d X k = c.v k
    unfold loadV
    rw [if_pos (by omega)]
    rw [hmatch k.val hkX]
    unfold vAt
    rw [dif_pos k.isLt]

/-- A state with I = 100 and registers Vk = k + 10, for the round-trip
witness. -/
def c9demoC : Chip8 := { zeroChip8 with i := 100, v := fun k => k.val + 10 }

/-- A state with I = 200 whose memory at 200..203 already matches
V0..V3 of `c9demoC`. -/
def c9demoD : Chip8 :=
  { zeroChip8 with
    i := 200
    mem := fun a => if 200 ≤ a.val ∧ a.val ≤ 203 then a.val - 200 + 10 else 0 }

/-- C9 witness: the round-trip theorem applied with X = 3,
opcodes 0xF355 / 0xF365, at the concrete states above. -/
theorem c9_wit : c9Concl 0 0 0 c9demoC c9demoD 0xF355 0xF365 3 :=
  c9_dump_load_roundtrip 0 0 0 c9demoC c9demoD 0xF355 0xF365 3
    (by decide) (by decide) (by decide) (by decide) (by decide) (by decide)
    (by decide)

/-- The big-endian opcode at the current program counter (what
`fetchOpcode` returns when both byte addresses are in memory). -/
def fetchedOp (c : Chip8) : Nat := memAt c c.pc <<< 8 ||| memAt c (c.pc + 1)

/-- With `pc + 1` inside memory, one `step` is fetch (advancing the
program counter by 2) followed by `execOpcode` on the fetched word. -/
theorem step_eq_of_fetch (r : Nat) (c : Chip8) (hpc : c.pc + 1 < 4096) :
    step r c = execOpcode r { c with pc := (c.pc + 2) % 65536 } (fetchedOp c) := by
  have h1 : c.pc < 4096 := by omega
  unfold step fetchOpcode memGet? fetchedOp memAt
  rw [Nat.mod_eq_of_lt (show c.pc + 1 < 65536 by omega)]
  rw [dif_pos h1, dif_pos hpc]
  rw [dif_pos h1, dif_pos hpc]

/-- Dispatch outcomes for the unhandled opcode patterns: family 0x0
other than 0x00E0/0x00EE is the fatal unimplemented error; an
unrecognized sub-op in family 0x8, 0xE or 0xF executes as a silent
no-op (the state changes only by the fetch's pc advance). -/
def c1Concl (r : Nat) (c : Chip8) : Prop :=
  (fetchedOp c &&& 0xF000 = 0x0000 → fetchedOp c ≠ 0x00E0 → fetchedOp c ≠ 0x00EE →
    step r c = .error (.notImplemented (fetchedOp c))) ∧
  (fetchedOp c &&& 0xF000 = 0x8000 →
    fetchedOp c &&& 0x0FFF &&& 0xF ∉ ([0, 1, 2, 3, 4, 5, 6, 7, 0xE] : List Nat) →
    step r c = .ok { c with pc := (c.pc + 2) % 65536 }) ∧
  (fetchedOp c &&& 0xF000 = 0xE000 →
    fetchedOp c &&& 0x0FFF &&& 0xFF ∉ ([0x9E, 0xA1] : List Nat) →
    step r c = .ok { c with pc := (c.pc + 2) % 65536 }) ∧
  (fetchedOp c &&& 0xF000 = 0xF000 →
    fetchedOp c &&& 0x0FFF &&& 0xFF ∉
      ([0x07, 0x0A, 0x15, 0x18, 0x1E, 0x29, 0x33, 0x55, 0x65] : List Nat) →
    step r c = .ok { c with pc := (c.pc + 2) % 65536 })

/-- C1 (amended): a family-0x0 opcode other than 0x00E0/0x00EE makes
`step` fail with the fatal unimplemented-instruction error; an opcode
of family 0x8, 0xE or 0xF whose sub-op matches no listed operation is
instead silently ignored — `step` returns normally with only the
fetch's program-counter advance. -/
theorem c1_unimplemented_dispatch (r : Nat) (c : Chip8)
    (hpc : c.pc + 1 < 4096) : c1Concl r c := by
  have hstep := step_eq_of_fetch r c hpc
  unfold c1Concl
  refine ⟨?_, ?_, ?_, ?_⟩
  · intro h0 hE0 hEE
    rw [hstep]
    unfold execOpcode
    simp only [h0]
    norm_num
    rw [if_neg hE0, if_neg hEE]
  · intro h8 hmem
    simp only [List.mem_cons, List.not_mem_nil, or_false, not_or] at hmem
    obtain ⟨e0, e1, e2, e3, e4, e5, e6, e7, eE⟩ := hmem
    rw [hstep]
    unfold execOpcode
    simp only [h8]
    norm_num
    rw [if_neg e0, if_neg e1, if_neg e2, if_neg e3, if_neg e4, if_neg e5,
        if_neg e6, if_neg e7, if_neg eE]
  · intro hE hmem
    simp only [List.mem_cons, List.not_mem_nil, or_false, not_or] at hmem
    obtain ⟨e1, e2⟩ := hmem
    rw [hstep]
    unfold execOpcode
    simp only [hE]
    norm_num
    rw [if_neg e1, if_neg e2]
  · intro hF hmem
    simp only [List.mem_cons, List.not_mem_nil, or_false, not_or] at hmem
    obtain ⟨e1, e2, e3, e4, e5, e6, e7, e8, e9⟩ := hmem
    rw [hstep]
    unfold execOpcode
    simp only [hF]
    norm_num
    rw [if_neg e1, if_neg e2, if_neg e3, if_neg e4, if_neg e5, if_neg e6,
        if_neg e7, if_neg e8, if_neg e9]

/-- A state about to execute opcode 0x8008 (family 0x8, sub-op 8 —
matching no listed operation). -/
def c1demo : Chip8 :=
  { zeroChip8 with
    pc := 0x200
    mem := fun a => if a.val = 0x200 then 0x80 else if a.val = 0x201 then 0x08 else 0 }

/-- A state about to execute opcode 0x0123 (family 0x0, neither
0x00E0 nor 0x00EE). -/
def c1demo2 : Chip8 :=
  { zeroChip8 with
    pc := 0x200
    mem := fun a => if a.val = 0x200 then 0x01 else if a.val = 0x201 then 0x23 else 0 }

/-- C1 counterexample: `step` on opcode 0x8008 (family 0x8, unlisted
sub-op 8) completes normally — the program counter advances past the
instruction — rather than failing with the claimed fatal
unimplemented-instruction error. -/
theorem c1_cex :
    (step 0 c1demo).toOption.map (fun s => s.pc) = some 0x202 ∧
    step 0 c1demo ≠ .error (.notImplemented 0x8008) := by
  have h1 : (step 0 c1demo).toOption.map (fun s => s.pc) = some 0x202 := by decide
  refine ⟨h1, fun h => ?_⟩
  rw [h] at h1
  simp [Except.toOption] at h1

/-- C1 witness: the amended dispatch theorem applied at the concrete
state fetching opcode 0x0123. -/
theorem c1_wit : c1Concl 0 c1demo2 :=
  c1_unimplemented_dispatch 0 c1demo2 (by decide)

/-- `dispAt` at the value of an index that is in range. -/
theorem dispAt_lt (c : Chip8) (q : Fin 2048) : dispAt c q.val = c.disp q := by
  unfold dispAt
  rw [dif_pos q.isLt, Fin.eta]

/-- `memAt` at the value of an index that is in range. -/
theorem memAt_lt (c : Chip8) (a : Fin 4096) : memAt c a.val = c.mem a := by
  unfold memAt
  rw [dif_pos a.isLt, Fin.eta]

/-- Bit `col` (from the most significant side) of sprite row `row`,
read from memory at `i + row`: `(sm[iy] >> (7-ix)) & 0x01`. -/
def spriteBit (c : Chip8) (i row col : Nat) : Nat :=
  memAt c (i + row) >>> (7 - col) &&& 1

/-- Loop invariant of the pixel loop `drawRowAux`: processing pixels
`ix..7` of row `iy` XORs the sprite bits into exactly the in-bounds
cells of that row, reports a collision iff some such cell held 1 and
received a 1 bit, and touches nothing else. -/
theorem drawRowAux_spec (i x y iy : Nat) :
    ∀ fuel ix c fl, fuel + ix = 8 → i + iy < 4096 →
    ∃ c1 fl1, drawRowAux i x y iy fuel ix c fl = some (c1, fl1) ∧
      c1.mem = c.mem ∧ c1.pc = c.pc ∧ c1.v = c.v ∧ c1.i = c.i ∧
      c1.dt = c.dt ∧ c1.st = c.st ∧ c1.sp = c.sp ∧ c1.stack = c.stack ∧
      c1.keys = c.keys ∧
      (∀ j, ix ≤ j → j < 8 → x + j < 64 → y + iy < 32 →
        dispAt c1 ((y + iy) * 64 + (x + j)) =
          dispAt c ((y + iy) * 64 + (x + j)) ^^^ spriteBit c i iy j) ∧
      (∀ q : Fin 2048,
        (∀ j, ix ≤ j → j < 8 → x + j < 64 → y + iy < 32 →
          q.val ≠ (y + iy) * 64 + (x + j)) →
        c1.disp q = c.disp q) ∧
      (fl1 = true ↔ fl = true ∨ ∃ j, ix ≤ j ∧ j < 8 ∧ x + j < 64 ∧
        y + iy < 32 ∧ dispAt c ((y + iy) * 64 + (x + j)) = 1 ∧
        spriteBit c i iy j = 1) := by
  intro fuel
  induction fuel with
  | zero =>
    intro ix c fl h8 hmem
    refine ⟨c, fl, rfl, rfl, rfl, rfl, rfl, rfl, rfl, rfl, rfl, rfl,
      fun j hj1 hj2 _ _ => by omega, fun q _ => rfl, ?_⟩
    constructor
    · exact Or.inl
    · rintro (h | ⟨j, hj1, hj2, _⟩)
      · exact h
      · omega
  | succ m ih =>
    intro ix c fl h8 hmem
    rw [drawRowAux]
    by_cases hcl : 64 ≤ x + ix ∨ 32 ≤ y + iy
    · rw [dif_pos hcl]
      obtain ⟨c1, fl1, hrun, hm, hp, hv, hi, hdt, hst, hsp, hstk, hk,
        htch, hutch, hflag⟩ := ih (ix + 1) c fl (by omega) hmem
      refine ⟨c1, fl1, hrun, hm, hp, hv, hi, hdt, hst, hsp, hstk, hk,
        ?_, ?_, ?_⟩
      · intro j hj1 hj2 hx64 hy32
        have hjix : j ≠ ix := by omega
        exact htch j (by omega) hj2 hx64 hy32
      · intro q hq
        exact hutch q (fun j hj1 hj2 hx64 hy32 => hq j (by omega) hj2 hx64 hy32)
      · rw [hflag]
        constructor
        · rintro (h | ⟨j, hj1, hj2, hx64, hy32, hs, hd⟩)
          · exact Or.inl h
          · exact Or.inr ⟨j, by omega, hj2, hx64, hy32, hs, hd⟩
        · rintro (h | ⟨j, hj1, hj2, hx64, hy32, hs, hd⟩)
          · exact Or.inl h
          · have hjix : j ≠ ix := fun he => by rcases hcl with h | h <;> omega
            exact Or.inr ⟨j, by omega, hj2, hx64, hy32, hs, hd⟩
    · rw [dif_neg hcl]
      have hx64 : x + ix < 64 := by omega
      have hy32 : y + iy < 32 := by omega
      have hget : memGet? c (i + iy) = some (c.mem ⟨i + iy, hmem⟩) := dif_pos hmem
      set q0 : Fin 2048 := ⟨(y + iy) * 64 + (x + ix), by omega⟩ with hq0
      set d := c.mem ⟨i + iy, hmem⟩ >>> (7 - ix) &&& 1 with hd
      set s := c.disp q0 with hs
      set c3 : Chip8 := { c with disp := Function.update c.disp q0 (s ^^^ d) } with hc3
      obtain ⟨c1, fl1, hrun, hm, hp, hv, hi2, hdt, hst, hsp, hstk, hk,
        htch, hutch, hflag⟩ := ih (ix + 1) c3 (fl || (s == 1 && d == 1)) (by omega) hmem
      have hc3mem : c3.mem = c.mem := rfl
      have hcell : ∀ j, j ≠ ix → (y + iy) * 64 + (x + j) ≠ q0.val := by
        intro j hj
        show (y + iy) * 64 + (x + j) ≠ (y + iy) * 64 + (x + ix)
        omega
      have hsbit : ∀ col, spriteBit c3 i iy col = spriteBit c i iy col := fun _ => rfl
      have hdA : ∀ mv, mv ≠ q0.val → dispAt c3 mv = dispAt c mv := by
        intro mv hne
        unfold dispAt
        by_cases h2 : mv < 2048
        · rw [dif_pos h2, dif_pos h2]
          show Function.update c.disp q0 (s ^^^ d) ⟨mv, h2⟩ = c.disp ⟨mv, h2⟩
          exact Function.update_noteq (Fin.ne_of_val_ne hne) _ _
        · rw [dif_neg h2, dif_neg h2]
      have hdval : spriteBit c i iy ix = d := by
        unfold spriteBit memAt
        rw [dif_pos hmem]
      have hq0val : q0.val = (y + iy) * 64 + (x + ix) := rfl
      have hc1q0 : c1.disp q0 = s ^^^ d := by
        have h1 : c1.disp q0 = c3.disp q0 :=
          hutch q0 (fun j a b cc dd => (hcell j (by omega) ).symm)
        rw [h1]
        show Function.update c.disp q0 (s ^^^ d) q0 = s ^^^ d
        exact Function.update_same q0 (s ^^^ d) c.disp
      refine ⟨c1, fl1, ?_, hm, hp, hv, hi2, hdt, hst, hsp, hstk, hk, ?_, ?_, ?_⟩
      · rw [hget]
        exact hrun
      · intro j hj1 hj2 hx64j hy32j
        by_cases hj : j = ix
        · subst hj
          rw [show dispAt c1 ((y + iy) * 64 + (x + j)) = c1.disp q0 from
            dispAt_lt c1 q0]
          rw [hc1q0, hdval]
          rw [show dispAt c ((y + iy) * 64 + (x + j)) = c.disp q0 from
            dispAt_lt c q0]
        · have hne := hcell j hj
          rw [htch j (by omega) hj2 hx64j hy32j, hsbit j, hdA _ hne]
      · intro q hq
        have h1 : c1.disp q = c3.disp q :=
          hutch q (fun j a b cc dd => hq j (by omega) b cc dd)
        rw [h1]
        show Function.update c.disp q0 (s ^^^ d) q = c.disp q
        exact Function.update_noteq
          (Fin.ne_of_val_ne (hq ix (le_refl ix) (by omega) hx64 hy32)) _ _
      · rw [hflag]
        have hsx : dispAt c ((y + iy) * 64 + (x + ix)) = s := dispAt_lt c q0
        constructor
        · rintro (hor | ⟨j, hj1, hj2, hx64j, hy32j, hsj, hbj⟩)
          · simp only [Bool.or_eq_true, Bool.and_eq_true, beq_iff_eq] at hor
            rcases hor with hfl | ⟨hs1, hd1⟩
            · exact Or.inl hfl
            · refine Or.inr ⟨ix, le_refl ix, by omega, hx64, hy32, ?_, ?_⟩
              · rw [hsx]
                exact hs1
              · rw [hdval]
                exact hd1
          · refine Or.inr ⟨j, by omega, hj2, hx64j, hy32j, ?_, ?_⟩
            · rw [← hdA _ (hcell j (by omega))]
              exact hsj
            · rw [← hsbit j]
              exact hbj
        · rintro (hfl | ⟨j, hj1, hj2, hx64j, hy32j, hsj, hbj⟩)
          · exact Or.inl (by rw [hfl]; rfl)
          · by_cases hj : j = ix
            · subst hj
              refine Or.inl ?_
              simp only [Bool.or_eq_true, Bool.and_eq_true, beq_iff_eq]
              refine Or.inr ⟨?_, ?_⟩
              · rw [hsx] at hsj
                exact hsj
              · rw [hdval] at hbj
                exact hbj
            · refine Or.inr ⟨j, by omega, hj2, hx64j, hy32j, ?_, ?_⟩
              · rw [hdA _ (hcell j hj)]
                exact hsj
              · rw [hsbit j]
                exact hbj

/-- Loop invariant of the row loop `drawRowsAux`: processing rows
`iy..n-1` XORs each sprite bit into exactly the in-bounds cells of the
sprite rectangle, reports a collision iff some such cell held 1 and
received a 1 bit, and touches nothing else. -/
theorem drawRowsAux_spec (i x y n : Nat) :
    ∀ fuel iy c fl, fuel + iy = n → i + n ≤ 4096 →
    ∃ c1 fl1, drawRowsAux i x y fuel iy c fl = some (c1, fl1) ∧
      c1.mem = c.mem ∧ c1.pc = c.pc ∧ c1.v = c.v ∧ c1.i = c.i ∧
      c1.dt = c.dt ∧ c1.st = c.st ∧ c1.sp = c.sp ∧ c1.stack = c.stack ∧
      c1.keys = c.keys ∧
      (∀ row j, iy ≤ row → row < n → j < 8 → x + j < 64 → y + row < 32 →
        dispAt c1 ((y + row) * 64 + (x + j)) =
          dispAt c ((y + row) * 64 + (x + j)) ^^^ spriteBit c i row j) ∧
      (∀ q : Fin 2048,
        (∀ row j, iy ≤ row → row < n → j < 8 → x + j < 64 → y + row < 32 →
          q.val ≠ (y + row) * 64 + (x + j)) →
        c1.disp q = c.disp q) ∧
      (fl1 = true ↔ fl = true ∨ ∃ row j, iy ≤ row ∧ row < n ∧ j < 8 ∧
        x + j < 64 ∧ y + row < 32 ∧
        dispAt c ((y + row) * 64 + (x + j)) = 1 ∧
        spriteBit c i row j = 1) := by
  intro fuel
  induction fuel with
  | zero =>
    intro iy c fl h0 hbound
    refine ⟨c, fl, rfl, rfl, rfl, rfl, rfl, rfl, rfl, rfl, rfl, rfl,
      fun row j h1 h2 _ _ _ => by omega, fun q _ => rfl, ?_⟩
    constructor
    · exact Or.inl
    · rintro (h | ⟨row, j, h1, h2, _⟩)
      · exact h
      · omega
  | succ m ih =>
    intro iy c fl hfn hbound
    rw [drawRowsAux]
    have hmem : i + iy < 4096 := by omega
    obtain ⟨cr, flr, hrunr, hmr, hpr, hvr, hir, hdtr, hstr, hspr, hstkr,
      hkr, htchr, hutchr, hflagr⟩ := drawRowAux_spec i x y iy 8 0 c fl rfl hmem
    obtain ⟨c1, fl1, hrun, hm, hp, hv, hi2, hdt, hst, hsp, hstk, hk,
      htch, hutch, hflag⟩ := ih (iy + 1) cr flr (by omega) hbound
    have hcellrow : ∀ row j, row ≠ iy → j < 8 → x + j < 64 → y + row < 32 →
        ∀ j2, j2 < 8 → x + j2 < 64 →
        (y + row) * 64 + (x + j) ≠ (y + iy) * 64 + (x + j2) := by
      intro row j hrow hj8 hx64 hy32 j2 hj28 hx264
      rcases Nat.lt_or_ge row iy with h | h
      · have : (y + row) * 64 + 64 ≤ (y + iy) * 64 := by
          have : y + row + 1 ≤ y + iy := by omega
          calc (y + row) * 64 + 64 = (y + row + 1) * 64 := by ring
          _ ≤ (y + iy) * 64 := Nat.mul_le_mul_right 64 this
        omega
      · have hgt : iy < row := by omega
        have : (y + iy) * 64 + 64 ≤ (y + row) * 64 := by
          have h2 : y + iy + 1 ≤ y + row := by omega
          calc (y + iy) * 64 + 64 = (y + iy + 1) * 64 := by ring
          _ ≤ (y + row) * 64 := Nat.mul_le_mul_right 64 h2
        omega
    have hsbitr : ∀ row col, spriteBit cr i row col = spriteBit c i row col := by
      intro row col
      unfold spriteBit memAt
      rw [hmr]
    have hdAr : ∀ row j, row ≠ iy → j < 8 → x + j < 64 → y + row < 32 →
        dispAt cr ((y + row) * 64 + (x + j)) =
        dispAt c ((y + row) * 64 + (x + j)) := by
      intro row j hrow hj8 hx64 hy32
      have hlt : (y + row) * 64 + (x + j) < 2048 := by
        have : (y + row) * 64 ≤ 31 * 64 := Nat.mul_le_mul_right 64 (by omega)
        omega
      rw [show dispAt cr ((y + row) * 64 + (x + j)) =
        cr.disp ⟨(y + row) * 64 + (x + j), hlt⟩ from dispAt_lt cr ⟨_, hlt⟩]
      rw [show dispAt c ((y + row) * 64 + (x + j)) =
        c.disp ⟨(y + row) * 64 + (x + j), hlt⟩ from dispAt_lt c ⟨_, hlt⟩]
      exact hutchr ⟨_, hlt⟩
        (fun j2 _ hj28 hx264 _ => hcellrow row j hrow hj8 hx64 hy32 j2 hj28 hx264)
    refine ⟨c1, fl1, ?_, hm.trans hmr, hp.trans hpr, hv.trans hvr,
      hi2.trans hir, hdt.trans hdtr, hst.trans hstr, hsp.trans hspr,
      hstk.trans hstkr, hk.trans hkr, ?_, ?_, ?_⟩
    · rw [hrunr]
      exact hrun
    · intro row j hrow1 hrow2 hj8 hx64 hy32
      by_cases hrow : row = iy
      · subst hrow
        have h1 : dispAt c1 ((y + row) * 64 + (x + j)) =
            dispAt cr ((y + row) * 64 + (x + j)) := by
          have hlt : (y + row) * 64 + (x + j) < 2048 := by
            have : (y + row) * 64 ≤ 31 * 64 := Nat.mul_le_mul_right 64 (by omega)
            omega
          rw [show dispAt c1 ((y + row) * 64 + (x + j)) =
            c1.disp ⟨(y + row) * 64 + (x + j), hlt⟩ from dispAt_lt c1 ⟨_, hlt⟩]
          rw [show dispAt cr ((y + row) * 64 + (x + j)) =
            cr.disp ⟨(y + row) * 64 + (x + j), hlt⟩ from dispAt_lt cr ⟨_, hlt⟩]
          exact hutch ⟨_, hlt⟩
            (fun row2 j2 hr1 hr2 hj2 hx2 hy2 =>
              (hcellrow row2 j2 (by omega) hj2 hx2 hy2 j hj8 hx64).symm)
        rw [h1, htchr j (Nat.zero_le j) hj8 hx64 hy32]
      · have h1 := htch row j (by omega) hrow2 hj8 hx64 hy32
        rw [h1, hdAr row j hrow hj8 hx64 hy32, hsbitr row j]
    · intro q hq
      have h1 : c1.disp q = cr.disp q :=
        hutch q (fun row j hr1 hr2 hj hx2 hy2 => hq row j (by omega) hr2 hj hx2 hy2)
      rw [h1]
      exact hutchr q (fun j h0j hj8 hx2 hy2 => hq iy j (le_refl iy) (by omega) hj8 hx2 hy2)
    · rw [hflag, hflagr]
      constructor
      · rintro (hor | ⟨row, j, hr1, hr2, hj8, hx64, hy32, hsj, hbj⟩)
        · rcases hor with hfl | ⟨j, h0j, hj8, hx64, hy32, hsj, hbj⟩
          · exact Or.inl hfl
          · exact Or.inr ⟨iy, j, le_refl iy, by omega, hj8, hx64, hy32, hsj, hbj⟩
        · refine Or.inr ⟨row, j, by omega, hr2, hj8, hx64, hy32, ?_, ?_⟩
          · rw [← hdAr row j (by omega) hj8 hx64 hy32]
            exact hsj
          · rw [← hsbitr row j]
            exact hbj
      · rintro (hfl | ⟨row, j, hr1, hr2, hj8, hx64, hy32, hsj, hbj⟩)
        · exact Or.inl (Or.inl hfl)
        · by_cases hrow : row = iy
          · subst hrow
            exact Or.inl (Or.inr ⟨j, Nat.zero_le j, hj8, hx64, hy32, hsj, hbj⟩)
          · refine Or.inr ⟨row, j, by omega, hr2, hj8, hx64, hy32, ?_, ?_⟩
            · rw [hdAr row j hrow hj8 hx64 hy32]
              exact hsj
            · rw [hsbitr row j]
              exact hbj

/-- A drawn 1-bit lands on a lit cell: some in-bounds pixel of the
8×n sprite rectangle holds 1 in the framebuffer and receives a 1
sprite bit (and so transitions 1 → 0 under the XOR). -/
def drawCollides (c : Chip8) (x y n : Nat) : Prop :=
  ∃ row, row < n ∧ ∃ j, j < 8 ∧ x + j < 64 ∧ y + row < 32 ∧
    dispAt c ((y + row) * 64 + (x + j)) = 1 ∧ spriteBit c c.i row j = 1

/-- Post-condition of draw (DXYN): every in-bounds pixel of the 8×n
rectangle at (VX, VY) is XORed with its sprite bit, out-of-grid pixels
are skipped with no wraparound (all untargeted cells are untouched),
`VF` becomes 1 exactly when some written cell went 1 → 0, and nothing
else changes. -/
def c5Concl (r : Nat) (c : Chip8) (op : Nat) (X Y : Fin 16) : Prop :=
  ∃ c2, execOpcode r c op = .ok c2 ∧
    (∀ row j, row < op &&& 0x0FFF &&& 0xFF &&& 0xF → j < 8 →
      c.v X + j < 64 → c.v Y + row < 32 →
      dispAt c2 ((c.v Y + row) * 64 + (c.v X + j)) =
        dispAt c ((c.v Y + row) * 64 + (c.v X + j)) ^^^ spriteBit c c.i row j) ∧
    (∀ q : Fin 2048,
      (∀ row j, row < op &&& 0x0FFF &&& 0xFF &&& 0xF → j < 8 →
        c.v X + j < 64 → c.v Y + row < 32 →
        q.val ≠ (c.v Y + row) * 64 + (c.v X + j)) →
      c2.disp q = c.disp q) ∧
    (c2.v 15 = 1 ↔ drawCollides c (c.v X) (c.v Y) (op &&& 0x0FFF &&& 0xFF &&& 0xF)) ∧
    (c2.v 15 = 1 ∨ c2.v 15 = 0) ∧
    (∀ k : Fin 16, k.val ≠ 15 → c2.v k = c.v k) ∧
    c2.mem = c.mem ∧ c2.pc = c.pc ∧ c2.i = c.i ∧ c2.dt = c.dt ∧
    c2.st = c.st ∧ c2.sp = c.sp ∧ c2.stack = c.stack ∧ c2.keys = c.keys

/-- C5: when the N sprite rows at I lie within memory, draw (DXYN)
XORs each sprite bit into the framebuffer cell at (VX+col, VY+row),
skips every out-of-grid pixel without wrapping, and sets VF to 1 iff
some written cell transitioned from 1 to 0. -/
theorem c5_draw (r : Nat) (c : Chip8) (op : Nat) (X Y : Fin 16)
    (hop : op &&& 0xF000 = 0xD000) (hX : decodeX op = X) (hY : decodeY op = Y)
    (hn : c.i + (op &&& 0x0FFF &&& 0xFF &&& 0xF) ≤ 4096) : c5Concl r c op X Y := by
  unfold c5Concl
  obtain ⟨c1, fl1, hrun, hm, hp, hv, hi2, hdt, hst, hsp, hstk, hk,
    htch, hutch, hflag⟩ :=
    drawRowsAux_spec c.i (c.v X) (c.v Y) (op &&& 0x0FFF &&& 0xFF &&& 0xF)
      (op &&& 0x0FFF &&& 0xFF &&& 0xF) 0 c false rfl hn
  have hdraw : draw c (c.v X) (c.v Y) (op &&& 0x0FFF &&& 0xFF &&& 0xF) =
      some (c1, fl1) := by
    unfold draw
    rw [if_pos (by omega)]
    exact hrun
  have hexec : execOpcode r c op = .ok (updateCarryFlag c1 (fl1 = true)) := by
    unfold execOpcode
    simp only [hop, hX, hY]
    norm_num
    rw [hdraw]
  have hbridge : fl1 = true ↔
      drawCollides c (c.v X) (c.v Y) (op &&& 0x0FFF &&& 0xFF &&& 0xF) := by
    rw [hflag]
    constructor
    · rintro (h | ⟨row, j, _, hr2, hj8, hx64, hy32, hs1, hb1⟩)
      · simp at h
      · exact ⟨row, hr2, j, hj8, hx64, hy32, hs1, hb1⟩
    · rintro ⟨row, hr2, j, hj8, hx64, hy32, hs1, hb1⟩
      exact Or.inr ⟨row, j, Nat.zero_le row, hr2, hj8, hx64, hy32, hs1, hb1⟩
  have hdisp2 : (updateCarryFlag c1 (fl1 = true)).disp = c1.disp := by
    unfold updateCarryFlag
    split <;> rfl
  have hdispAt2 : ∀ mv, dispAt (updateCarryFlag c1 (fl1 = true)) mv = dispAt c1 mv := by
    intro mv
    unfold dispAt
    rw [hdisp2]
  refine ⟨_, hexec, ?_, ?_, ?_, ?_, ?_, ?_, ?_, ?_, ?_, ?_, ?_, ?_, ?_⟩
  · intro row j h1 h2 h3 h4
    rw [hdispAt2]
    exact htch row j (Nat.zero_le row) h1 h2 h3 h4
  · intro q hq
    rw [show (updateCarryFlag c1 (fl1 = true)).disp q = c1.disp q from
      congrFun hdisp2 q]
    exact hutch q (fun row j hr1 hr2 hj hx2 hy2 => hq row j hr2 hj hx2 hy2)
  · unfold updateCarryFlag
    by_cases hfl : fl1 = true
    · rw [if_pos hfl]
      have h1 : Function.update c1.v 15 1 15 = 1 := Function.update_same 15 1 c1.v
      exact iff_of_true h1 (hbridge.mp hfl)
    · rw [if_neg hfl]
      refine iff_of_false ?_ (fun hc => hfl (hbridge.mpr hc))
      show ¬ Function.update c1.v 15 0 15 = 1
      rw [Function.update_same]
      omega
  · unfold updateCarryFlag
    by_cases hfl : fl1 = true
    · rw [if_pos hfl]
      exact Or.inl (Function.update_same 15 1 c1.v)
    · rw [if_neg hfl]
      exact Or.inr (Function.update_same 15 0 c1.v)
  · intro k hk15
    have hkne : k ≠ 15 := Fin.ne_of_val_ne hk15
    unfold updateCarryFlag
    have hck : c1.v k = c.v k := congrFun hv k
    by_cases hfl : fl1 = true
    · rw [if_pos hfl]
      show Function.update c1.v 15 1 k = c.v k
      rw [Function.update_noteq hkne]
      exact hck
    · rw [if_neg hfl]
      show Function.update c1.v 15 0 k = c.v k
      rw [Function.update_noteq hkne]
      exact hck
  · show (updateCarryFlag c1 (fl1 = true)).mem = c.mem
    unfold updateCarryFlag
    split <;> exact hm
  · show (updateCarryFlag c1 (fl1 = true)).pc = c.pc
    unfold updateCarryFlag
    split <;> exact hp
  · show (updateCarryFlag c1 (fl1 = true)).i = c.i
    unfold updateCarryFlag
    split <;> exact hi2
  · show (updateCarryFlag c1 (fl1 = true)).dt = c.dt
    unfold updateCarryFlag
    split <;> exact hdt
  · show (updateCarryFlag c1 (fl1 = true)).st = c.st
    unfold updateCarryFlag
    split <;> exact hst
  · show (updateCarryFlag c1 (fl1 = true)).sp = c.sp
    unfold updateCarryFlag
    split <;> exact hsp
  · show (updateCarryFlag c1 (fl1 = true)).stack = c.stack
    unfold updateCarryFlag
    split <;> exact hstk
  · show (updateCarryFlag c1 (fl1 = true)).keys = c.keys
    unfold updateCarryFlag
    split <;> exact hk

/-- A state with index register I = 0x100, for the draw witness. -/
def c5demo : Chip8 := { zeroChip8 with i := 0x100 }

/-- C5 witness: the draw theorem applied at opcode 0xD015 (X = 0,
Y = 1, 5 rows) with I = 0x100, all 5 sprite rows inside memory. -/
theorem c5_wit : c5Concl 0 c5demo 0xD015 0 1 :=
  c5_draw 0 c5demo 0xD015 0 1 (by decide) (by decide) (by decide) (by decide)
